import Mathlib

/-!
# ConcurrentSystems: bounded buffer, ADC lock and link pool

A shallow embedding of the three monitors of the repository:

* `Buffer` (src/prelim.cpp): the producer/consumer counter with the
  termination protocol;
* `Lock` / `ADC` (src/assignment.cpp, src/assignment_a1.cpp): the test-and-set
  lock guarding the ADC;
* `Link` / `LinkAccessController` (src/assignment.cpp): the pool of links.

The method bodies run under the monitor's mutex (all but `releaseADC` and
`sampleADC` of src/assignment_a1.cpp, which take none and are embedded by
their effect on the fields, as one step), so a body is embedded as a function
on the monitor's fields.  A body that reaches `cond.wait` gives up
the mutex; the embedding returns the fields as they are at that moment
together with the status `waiting`, and a second function (`putResume`,
`getResume`, or the method itself where the loop head is the whole test)
embeds what the body does when `wait` returns.

C++ `int` fields are `Int`.  The active counters are decremented without any
test, so their decrement is taken in 32-bit two's complement (`wrapInt32`):
the value the compiled program stores when the decrement leaves the range of
`int`.  `count` is incremented only when it is not 10 and decremented only
when it is not 0; from the constructor it stays in `[0, 10]`, where the plain
`Int` operation is the `int` operation.
-/

namespace ConcurrentSystems

/-! ## Constants -/

/-- Constant `NPRODS` of src/prelim.cpp: number of producer threads. -/
def NPRODS : Int := 3

/-- Constant `NCONS` of src/prelim.cpp: number of consumer threads. -/
def NCONS : Int := 2

/-- Constant `NUM_OF_LINKS` of src/assignment.cpp. -/
def NUM_OF_LINKS : Nat := 3

/-- Lower bound `INT_MIN` of a 32-bit `int`. -/
def INT_MIN : Int := -2147483648

/-- Upper bound `INT_MAX` of a 32-bit `int`. -/
def INT_MAX : Int := 2147483647

/-- The 32-bit two's-complement `int` congruent to `x` modulo `2^32`: the
identity on `[INT_MIN, INT_MAX]`. -/
def wrapInt32 (x : Int) : Int := (x + 2147483648) % 4294967296 - 2147483648

/-- How a monitor method leaves the mutex: by returning to its caller, or by
suspending in `cond.wait`. -/
inductive Status where
  | returned
  | waiting
  deriving DecidableEq

/-! ## Buffer (src/prelim.cpp) -/

/-- Fields of `class Buffer`. -/
structure Buffer where
  count : Int
  activeProducers : Int
  activeConsumers : Int
  noActiveProducer : Bool
  noActiveConsumer : Bool
  deriving DecidableEq

namespace Buffer

/-- Constructor `Buffer::Buffer()`. -/
def init : Buffer :=
  { count := 0
    activeProducers := NPRODS
    activeConsumers := NCONS
    noActiveProducer := false
    noActiveConsumer := false }

/-- Body of `Buffer::put` from entry up to its return or its first
`cond.wait`. -/
def put (b : Buffer) : Buffer × Status :=
  if b.count == 10 then
    if (b.count == 10) && !b.noActiveConsumer then (b, Status.waiting)
    else (b, Status.returned)
  else
    ({ b with count := b.count + 1 }, Status.returned)

/-- Continuation of `Buffer::put` when `cond.wait` returns: the `while` test
is evaluated again on the fields as they are now; the call then suspends
again or falls out of the `if` and returns. -/
def putResume (b : Buffer) : Buffer × Status :=
  if (b.count == 10) && !b.noActiveConsumer then (b, Status.waiting)
  else (b, Status.returned)

/-- Body of `Buffer::get` from entry up to its return or its first
`cond.wait`. -/
def get (b : Buffer) : Buffer × Status :=
  if b.count == 0 then
    if (b.count == 0) && !b.noActiveProducer then (b, Status.waiting)
    else (b, Status.returned)
  else
    ({ b with count := b.count - 1 }, Status.returned)

/-- Continuation of `Buffer::get` when `cond.wait` returns. -/
def getResume (b : Buffer) : Buffer × Status :=
  if (b.count == 0) && !b.noActiveProducer then (b, Status.waiting)
  else (b, Status.returned)

/-- Method `Buffer::isNoActiveProducer`. -/
def isNoActiveProducer (b : Buffer) : Bool := b.noActiveProducer

/-- Method `Buffer::isNoActiveConsumer`. -/
def isNoActiveConsumer (b : Buffer) : Bool := b.noActiveConsumer

/-- Method `Buffer::consumerTerminated`: pre-decrement of the `int` counter,
then test against 0. -/
def consumerTerminated (b : Buffer) : Buffer :=
  let b1 := { b with activeConsumers := wrapInt32 (b.activeConsumers - 1) }
  if b1.activeConsumers == 0 then { b1 with noActiveConsumer := true } else b1

/-- Method `Buffer::producerTerminated`: pre-decrement of the `int` counter,
then test against 0. -/
def producerTerminated (b : Buffer) : Buffer :=
  let b1 := { b with activeProducers := wrapInt32 (b.activeProducers - 1) }
  if b1.activeProducers == 0 then { b1 with noActiveProducer := true } else b1

end Buffer

/-- The four state-changing calls on a `Buffer`. -/
inductive BufferOp where
  | put
  | get
  | producerTerminated
  | consumerTerminated
  deriving DecidableEq

/-- Effect of one call on the fields, taken as one atomic step: what the body
has written when it leaves the mutex (a `put` or `get` that suspends has
written nothing, and writes nothing after it wakes, see `putResume`). -/
def Buffer.apply (b : Buffer) : BufferOp → Buffer
  | BufferOp.put => (b.put).1
  | BufferOp.get => (b.get).1
  | BufferOp.producerTerminated => b.producerTerminated
  | BufferOp.consumerTerminated => b.consumerTerminated

/-- The fields after a finite sequence of calls, left to right. -/
def Buffer.run (b : Buffer) (ops : List BufferOp) : Buffer :=
  ops.foldl Buffer.apply b

/-- A whole `put` call of one thread.  The call enters at `b`; each time it is
suspended the other threads perform the next batch of `env` (their calls, as
atomic steps) and the call wakes and tests its loop condition again.  The
result is the fields and status when the call returns, or when `env` is used
up with the call still suspended, and the number of batches that ran. -/
def Buffer.putLoop : Buffer → List (List BufferOp) → Nat → Buffer × Status × Nat
  | b, [], k => (b, Status.waiting, k)
  | b, batch :: rest, k =>
    match (b.run batch).putResume with
    | (b1, Status.returned) => (b1, Status.returned, k + 1)
    | (b1, Status.waiting) => Buffer.putLoop b1 rest (k + 1)

/-- A whole `put` call entered at `b` against the environment `env`. -/
def Buffer.putCall (b : Buffer) (env : List (List BufferOp)) : Buffer × Status × Nat :=
  match b.put with
  | (b1, Status.returned) => (b1, Status.returned, 0)
  | (b1, Status.waiting) => Buffer.putLoop b1 env 0

/-- A whole `get` call: the loop after the first suspension. -/
def Buffer.getLoop : Buffer → List (List BufferOp) → Nat → Buffer × Status × Nat
  | b, [], k => (b, Status.waiting, k)
  | b, batch :: rest, k =>
    match (b.run batch).getResume with
    | (b1, Status.returned) => (b1, Status.returned, k + 1)
    | (b1, Status.waiting) => Buffer.getLoop b1 rest (k + 1)

/-- A whole `get` call entered at `b` against the environment `env`. -/
def Buffer.getCall (b : Buffer) (env : List (List BufferOp)) : Buffer × Status × Nat :=
  match b.get with
  | (b1, Status.returned) => (b1, Status.returned, 0)
  | (b1, Status.waiting) => Buffer.getLoop b1 env 0

/-- Number of occurrences of a call in a sequence. -/
def BufferOp.occurrences (op : BufferOp) (ops : List BufferOp) : Nat :=
  ops.count op

/-! ## Lock and ADC (src/assignment.cpp, src/assignment_a1.cpp)

The two files declare the same `Lock`, and `requestADC` and `releaseADC` with
the same effect on the fields; in src/assignment_a1.cpp `releaseADC` does not
take `ADC_mu`. -/

/-- Fields of `class Lock`; `isOpen` is the member `open`. -/
structure Lock where
  isOpen : Bool
  deriving DecidableEq

namespace Lock

/-- Constructor `Lock::Lock()`. -/
def init : Lock := { isOpen := true }

/-- Method `Lock::lock`: the returned flag and the lock afterwards. -/
def lock (l : Lock) : Bool × Lock :=
  if l.isOpen then (true, { l with isOpen := false })
  else (false, l)

/-- Method `Lock::unlock`. -/
def unlock (l : Lock) : Lock := { l with isOpen := true }

end Lock

/-- Fields of `class ADC` that its methods write.  `adcChannels` is a
reference to a vector that no method writes. -/
structure ADC where
  theADCLock : Lock
  sampleChannel : Int
  deriving DecidableEq

namespace ADC

/-- Constructor `ADC::ADC`: the lock is a fresh `Lock`; `sampleChannel` is
left uninitialised, `indeterminate` stands for whatever it holds. -/
def init (indeterminate : Int) : ADC :=
  { theADCLock := Lock.init, sampleChannel := indeterminate }

/-- One pass of `ADC::requestADC` through the head of its `while` loop, from
entry or from a wake-up: `lock()` is called; on `true` the loop ends,
`sampleChannel` is written and the call returns, on `false` the call suspends
in `wait`. -/
def requestADC (a : ADC) (channel : Int) : ADC × Status :=
  match a.theADCLock.lock with
  | (true, l) => ({ theADCLock := l, sampleChannel := channel }, Status.returned)
  | (false, l) => ({ a with theADCLock := l }, Status.waiting)

/-- Method `ADC::releaseADC`. -/
def releaseADC (a : ADC) : ADC := { a with theADCLock := a.theADCLock.unlock }

end ADC

/-- The ADC together with the callers that hold it: those whose `requestADC`
has returned and who have not called `releaseADC` since. -/
structure AdcSys where
  adc : ADC
  holders : List Nat
  deriving DecidableEq

namespace AdcSys

/-- The freshly constructed ADC; nobody holds it. -/
def init (indeterminate : Int) : AdcSys :=
  { adc := ADC.init indeterminate, holders := [] }

/-- Caller `caller` runs `requestADC` (or wakes inside it): it becomes a
holder exactly when the call returns. -/
def request (s : AdcSys) (caller : Nat) (channel : Int) : AdcSys :=
  match s.adc.requestADC channel with
  | (a, Status.returned) => { adc := a, holders := caller :: s.holders }
  | (a, Status.waiting) => { adc := a, holders := s.holders }

/-- Caller `caller` runs `releaseADC` and stops holding. -/
def release (s : AdcSys) (caller : Nat) : AdcSys :=
  { adc := s.adc.releaseADC, holders := s.holders.erase caller }

/-- States reachable from the constructed ADC by `requestADC` steps of any
caller and `releaseADC` steps of a current holder. -/
inductive Reachable : AdcSys → Prop
  | init (indeterminate : Int) : Reachable (AdcSys.init indeterminate)
  | request {s : AdcSys} (caller : Nat) (channel : Int) :
      Reachable s → Reachable (s.request caller channel)
  | release {s : AdcSys} (caller : Nat) :
      Reachable s → caller ∈ s.holders → Reachable (s.release caller)

end AdcSys

/-! ## Link and LinkAccessController (src/assignment.cpp) -/

/-- Fields of `class Link` that carry state; `myReceiver` is a reference that
the pool operations never follow. -/
structure Link where
  inUse : Bool
  linkId : Int
  deriving DecidableEq

namespace Link

/-- Constructor `Link::Link(r, linkNum)`. -/
def create (linkNum : Int) : Link := { inUse := false, linkId := linkNum }

/-- Method `Link::isInUse`. -/
def isInUse (l : Link) : Bool := l.inUse

/-- Method `Link::setInUse`. -/
def setInUse (l : Link) (status : Bool) : Link := { l with inUse := status }

/-- Method `Link::getLinkId`. -/
def getLinkId (l : Link) : Int := l.linkId

end Link

/-- Element access `v[i]` of a `std::vector` with an `int` index: defined only
for `0 <= i < v.size()`. -/
def vectorAt (v : List Link) (i : Int) : Option Link :=
  if 0 ≤ i ∧ i < (v.length : Int) then v[i.toNat]? else none

/-- Fields of `class LinkAccessController`. -/
structure LinkAccessController where
  numOfAvailableLinks : Int
  commsLinks : List Link
  deriving DecidableEq

/-- The constructor loop after `n` iterations: `push_back(Link(myReceiver, i))`
for `i = 0 .. n-1`. -/
def pushLinks : Nat → List Link
  | 0 => []
  | n + 1 => pushLinks n ++ [Link.create (n : Int)]

/-- Outcome of the `for` loop of `requestLink`. -/
inductive ScanResult where
  | found (linkNum : Int) (links : List Link)
  | notFound
  | fault
  deriving DecidableEq

/-- The `for` loop of `requestLink` at index `i` with `n` iterations left
(`i + n = NUM_OF_LINKS`): the first link that is not in use is marked in use,
its `getLinkId()` is stored in `linkNum` and the loop breaks.  An index
outside the vector is a fault. -/
def scanLinks (links : List Link) : Nat → Nat → ScanResult
  | _, 0 => ScanResult.notFound
  | i, n + 1 =>
    match links[i]? with
    | none => ScanResult.fault
    | some l =>
      if !l.isInUse then
        ScanResult.found l.getLinkId (links.set i (l.setInUse true))
      else scanLinks links (i + 1) n

/-- Outcome of one pass of `requestLink`. -/
inductive RequestResult where
  | granted (lac : LinkAccessController) (handle : Link)
  | waiting (lac : LinkAccessController)
  | fault
  deriving DecidableEq

namespace LinkAccessController

/-- Constructor `LinkAccessController::LinkAccessController`. -/
def init : LinkAccessController :=
  { numOfAvailableLinks := (NUM_OF_LINKS : Int), commsLinks := pushLinks NUM_OF_LINKS }

/-- One pass of `requestLink` through the body of its `while` loop, from entry
or from a wake-up (`linkNum` and `found` are as at entry in both cases): the
scan, then either the return of a copy of `commsLinks[linkNum]`, or the
suspension in `linkCond.wait`. -/
def requestLink (c : LinkAccessController) : RequestResult :=
  match scanLinks c.commsLinks 0 NUM_OF_LINKS with
  | ScanResult.fault => RequestResult.fault
  | ScanResult.notFound => RequestResult.waiting c
  | ScanResult.found linkNum links =>
    match vectorAt links linkNum with
    | none => RequestResult.fault
    | some handle => RequestResult.granted { c with commsLinks := links } handle

/-- Method `releaseLink`; `none` when `commsLinks[id]` is outside the
vector. -/
def releaseLink (c : LinkAccessController) (releasedLink : Link) :
    Option LinkAccessController :=
  let id := releasedLink.getLinkId
  match vectorAt c.commsLinks id with
  | none => none
  | some l => some { c with commsLinks := c.commsLinks.set id.toNat (l.setInUse false) }

/-- The link table as built by the constructor, up to the `inUse` flags: the
`getLinkId()` values of the links, in index order, are
`0, 1, .., NUM_OF_LINKS - 1`. -/
def WellFormed (c : LinkAccessController) : Prop :=
  c.commsLinks.map Link.getLinkId = (List.range NUM_OF_LINKS).map (fun i => (i : Int))

instance (c : LinkAccessController) : Decidable c.WellFormed :=
  inferInstanceAs (Decidable (_ = _))

/-- Link `i` of the table exists and is free. -/
def isFree (c : LinkAccessController) (i : Nat) : Prop :=
  (c.commsLinks[i]?).map Link.isInUse = some false

instance (c : LinkAccessController) (i : Nat) : Decidable (c.isFree i) :=
  inferInstanceAs (Decidable (_ = _))

/-- Number of links of the table with `inUse == true`. -/
def inUseCount (c : LinkAccessController) : Nat :=
  c.commsLinks.countP (fun l => l.isInUse)

end LinkAccessController

/-- The pool together with the handles outstanding: each pair is a caller and
the `Link` copy that `requestLink` returned to it and that it has not yet
passed to `releaseLink`. -/
structure PoolSys where
  lac : LinkAccessController
  held : List (Nat × Link)
  deriving DecidableEq

namespace PoolSys

/-- The constructed pool; no handle is outstanding. -/
def init : PoolSys := { lac := LinkAccessController.init, held := [] }

/-- Caller `caller` runs one pass of `requestLink`; `none` on a fault. -/
def request (s : PoolSys) (caller : Nat) : Option PoolSys :=
  match s.lac.requestLink with
  | RequestResult.granted lac handle => some { lac := lac, held := (caller, handle) :: s.held }
  | RequestResult.waiting lac => some { lac := lac, held := s.held }
  | RequestResult.fault => none

/-- Caller `caller` runs `releaseLink(handle)`; `none` on a fault. -/
def release (s : PoolSys) (caller : Nat) (handle : Link) : Option PoolSys :=
  match s.lac.releaseLink handle with
  | some lac => some { lac := lac, held := s.held.erase (caller, handle) }
  | none => none

/-- Link ids of the outstanding handles. -/
def heldIds (s : PoolSys) : List Int := s.held.map (fun p => p.2.getLinkId)

/-- States reachable from the constructed pool by `requestLink` steps of any
caller and `releaseLink` steps in which a caller passes a handle it holds. -/
inductive Reachable : PoolSys → Prop
  | init : Reachable PoolSys.init
  | request {s s' : PoolSys} (caller : Nat) :
      Reachable s → s.request caller = some s' → Reachable s'
  | release {s s' : PoolSys} (caller : Nat) (handle : Link) :
      Reachable s → (caller, handle) ∈ s.held → s.release caller handle = some s' →
      Reachable s'

end PoolSys

/-! ## Invariants -/

namespace Buffer

/-- The producer side of the termination protocol after `k` calls of
`producerTerminated`: the counter is `NPRODS - k` as long as that is an `int`
(`k <= NPRODS - INT_MIN`), and the flag is set exactly from the NPRODS-th call
on. -/
def ProducerInv (b : Buffer) (k : Nat) : Prop :=
  ((k : Int) ≤ NPRODS - INT_MIN → b.activeProducers = NPRODS - (k : Int)) ∧
    (b.noActiveProducer = true ↔ NPRODS ≤ (k : Int))

/-- The consumer side of the termination protocol after `k` calls of
`consumerTerminated`: the counter is `NCONS - k` as long as that is an `int`
(`k <= NCONS - INT_MIN`), and the flag is set exactly from the NCONS-th call
on. -/
def ConsumerInv (b : Buffer) (k : Nat) : Prop :=
  ((k : Int) ≤ NCONS - INT_MIN → b.activeConsumers = NCONS - (k : Int)) ∧
    (b.noActiveConsumer = true ↔ NCONS ≤ (k : Int))

end Buffer

namespace AdcSys

/-- The lock is open exactly when nobody holds the ADC, and closed exactly
when one caller does. -/
def Inv (s : AdcSys) : Prop :=
  (s.adc.theADCLock.isOpen = true → s.holders = []) ∧
    (s.adc.theADCLock.isOpen = false → ∃ t : Nat, s.holders = [t])

end AdcSys

namespace PoolSys

/-- The table is well formed; every outstanding handle is the in-use copy of a
link that the table marks in use; outstanding ids are pairwise distinct; and
the links in use are as many as the outstanding handles. -/
def Inv (s : PoolSys) : Prop :=
  s.lac.WellFormed ∧
  (∀ p ∈ s.held, ∃ k : Nat, k < NUM_OF_LINKS ∧ p.2 = { inUse := true, linkId := (k : Int) } ∧
      s.lac.commsLinks[k]? = some { inUse := true, linkId := (k : Int) }) ∧
  s.heldIds.Nodup ∧
  s.lac.inUseCount = s.held.length

end PoolSys

/-! ## Buffer: bounds and transitions -/

namespace Buffer

theorem run_nil (b : Buffer) : b.run [] = b := rfl

theorem run_cons (b : Buffer) (op : BufferOp) (ops : List BufferOp) :
    b.run (op :: ops) = (b.apply op).run ops := rfl

theorem run_append (b : Buffer) (xs ys : List BufferOp) :
    b.run (xs ++ ys) = (b.run xs).run ys := by
  simp [Buffer.run, List.foldl_append]

theorem apply_count_bounds (b : Buffer) (op : BufferOp)
    (h : 0 ≤ b.count ∧ b.count ≤ 10) :
    0 ≤ (b.apply op).count ∧ (b.apply op).count ≤ 10 := by
  cases op <;>
    simp only [Buffer.apply, Buffer.put, Buffer.get, Buffer.producerTerminated,
      Buffer.consumerTerminated, beq_iff_eq] <;>
    split_ifs <;> simp <;> omega

theorem run_count_bounds (ops : List BufferOp) :
    ∀ b : Buffer, 0 ≤ b.count ∧ b.count ≤ 10 →
      0 ≤ (b.run ops).count ∧ (b.run ops).count ≤ 10 := by
  induction ops with
  | nil => intro b h; simpa [Buffer.run] using h
  | cons op rest ih =>
    intro b h
    exact ih (b.apply op) (apply_count_bounds b op h)

theorem wrapInt32_of_range (x : Int) (h : INT_MIN ≤ x ∧ x ≤ INT_MAX) : wrapInt32 x = x := by
  unfold INT_MIN INT_MAX at h
  unfold wrapInt32
  omega

/-- At `INT_MIN` the decrement wraps to `INT_MAX`, in both methods. -/
theorem terminated_at_INT_MIN :
    (Buffer.producerTerminated (Buffer.mk 0 INT_MIN 0 true true)).activeProducers = INT_MAX ∧
    (Buffer.consumerTerminated (Buffer.mk 0 0 INT_MIN true true)).activeConsumers = INT_MAX := by
  decide

theorem producerTerminated_producerInv (b : Buffer) (k : Nat) (h : ProducerInv b k) :
    ProducerInv b.producerTerminated (k + 1) := by
  obtain ⟨h1, h2⟩ := h
  unfold ProducerInv at *
  simp only [NPRODS, INT_MIN] at *
  have hcnt : ((k + 1 : Nat) : Int) ≤ 3 - -2147483648 →
      wrapInt32 (b.activeProducers - 1) = 3 - ((k + 1 : Nat) : Int) := by
    intro hk
    have e := h1 (by omega)
    rw [e, wrapInt32_of_range _ (by unfold INT_MIN INT_MAX; omega)]
    omega
  by_cases hz : wrapInt32 (b.activeProducers - 1) = 0
  · have e : b.producerTerminated =
        { b with activeProducers := wrapInt32 (b.activeProducers - 1), noActiveProducer := true } := by
      simp [Buffer.producerTerminated, hz]
    rw [e]
    refine ⟨hcnt, ?_⟩
    simp only [true_iff]
    by_cases hk : ((k + 1 : Nat) : Int) ≤ 3 - -2147483648
    · have := hcnt hk
      omega
    · omega
  · have e : b.producerTerminated =
        { b with activeProducers := wrapInt32 (b.activeProducers - 1) } := by
      simp [Buffer.producerTerminated, hz]
    rw [e]
    refine ⟨hcnt, ?_⟩
    simp only
    rw [h2]
    by_cases hk : ((k + 1 : Nat) : Int) ≤ 3 - -2147483648
    · have := hcnt hk
      omega
    · omega

theorem consumerTerminated_consumerInv (b : Buffer) (k : Nat) (h : ConsumerInv b k) :
    ConsumerInv b.consumerTerminated (k + 1) := by
  obtain ⟨h1, h2⟩ := h
  unfold ConsumerInv at *
  simp only [NCONS, INT_MIN] at *
  have hcnt : ((k + 1 : Nat) : Int) ≤ 2 - -2147483648 →
      wrapInt32 (b.activeConsumers - 1) = 2 - ((k + 1 : Nat) : Int) := by
    intro hk
    have e := h1 (by omega)
    rw [e, wrapInt32_of_range _ (by unfold INT_MIN INT_MAX; omega)]
    omega
  by_cases hz : wrapInt32 (b.activeConsumers - 1) = 0
  · have e : b.consumerTerminated =
        { b with activeConsumers := wrapInt32 (b.activeConsumers - 1), noActiveConsumer := true } := by
      simp [Buffer.consumerTerminated, hz]
    rw [e]
    refine ⟨hcnt, ?_⟩
    simp only [true_iff]
    by_cases hk : ((k + 1 : Nat) : Int) ≤ 2 - -2147483648
    · have := hcnt hk
      omega
    · omega
  · have e : b.consumerTerminated =
        { b with activeConsumers := wrapInt32 (b.activeConsumers - 1) } := by
      simp [Buffer.consumerTerminated, hz]
    rw [e]
    refine ⟨hcnt, ?_⟩
    simp only
    rw [h2]
    by_cases hk : ((k + 1 : Nat) : Int) ≤ 2 - -2147483648
    · have := hcnt hk
      omega
    · omega

theorem apply_producerInv (b : Buffer) (k : Nat) (op : BufferOp) (h : ProducerInv b k) :
    ProducerInv (b.apply op) (k + [op].count BufferOp.producerTerminated) := by
  cases op with
  | producerTerminated => exact producerTerminated_producerInv b k h
  | put =>
    have e : ((b.apply BufferOp.put).activeProducers = b.activeProducers) ∧
        ((b.apply BufferOp.put).noActiveProducer = b.noActiveProducer) := by
      simp only [Buffer.apply, Buffer.put]; split_ifs <;> simp
    simpa [ProducerInv, e.1, e.2] using h
  | get =>
    have e : ((b.apply BufferOp.get).activeProducers = b.activeProducers) ∧
        ((b.apply BufferOp.get).noActiveProducer = b.noActiveProducer) := by
      simp only [Buffer.apply, Buffer.get]; split_ifs <;> simp
    simpa [ProducerInv, e.1, e.2] using h
  | consumerTerminated =>
    have e : ((b.apply BufferOp.consumerTerminated).activeProducers = b.activeProducers) ∧
        ((b.apply BufferOp.consumerTerminated).noActiveProducer = b.noActiveProducer) := by
      simp only [Buffer.apply, Buffer.consumerTerminated]; split_ifs <;> simp
    simpa [ProducerInv, e.1, e.2] using h

theorem apply_consumerInv (b : Buffer) (k : Nat) (op : BufferOp) (h : ConsumerInv b k) :
    ConsumerInv (b.apply op) (k + [op].count BufferOp.consumerTerminated) := by
  cases op with
  | consumerTerminated => exact consumerTerminated_consumerInv b k h
  | put =>
    have e : ((b.apply BufferOp.put).activeConsumers = b.activeConsumers) ∧
        ((b.apply BufferOp.put).noActiveConsumer = b.noActiveConsumer) := by
      simp only [Buffer.apply, Buffer.put]; split_ifs <;> simp
    simpa [ConsumerInv, e.1, e.2] using h
  | get =>
    have e : ((b.apply BufferOp.get).activeConsumers = b.activeConsumers) ∧
        ((b.apply BufferOp.get).noActiveConsumer = b.noActiveConsumer) := by
      simp only [Buffer.apply, Buffer.get]; split_ifs <;> simp
    simpa [ConsumerInv, e.1, e.2] using h
  | producerTerminated =>
    have e : ((b.apply BufferOp.producerTerminated).activeConsumers = b.activeConsumers) ∧
        ((b.apply BufferOp.producerTerminated).noActiveConsumer = b.noActiveConsumer) := by
      simp only [Buffer.apply, Buffer.producerTerminated]; split_ifs <;> simp
    simpa [ConsumerInv, e.1, e.2] using h

theorem run_producerInv (ops : List BufferOp) :
    ∀ (b : Buffer) (k : Nat), ProducerInv b k →
      ProducerInv (b.run ops) (k + BufferOp.producerTerminated.occurrences ops) := by
  induction ops with
  | nil => intro b k h; simpa [BufferOp.occurrences, Buffer.run] using h
  | cons op rest ih =>
    intro b k h
    have h1 := ih (b.apply op) _ (apply_producerInv b k op h)
    have e : k + List.count BufferOp.producerTerminated [op] +
        BufferOp.producerTerminated.occurrences rest =
        k + BufferOp.producerTerminated.occurrences (op :: rest) := by
      simp only [BufferOp.occurrences, List.count_cons, List.count_nil]
      omega
    rw [e] at h1
    exact h1

theorem run_consumerInv (ops : List BufferOp) :
    ∀ (b : Buffer) (k : Nat), ConsumerInv b k →
      ConsumerInv (b.run ops) (k + BufferOp.consumerTerminated.occurrences ops) := by
  induction ops with
  | nil => intro b k h; simpa [BufferOp.occurrences, Buffer.run] using h
  | cons op rest ih =>
    intro b k h
    have h1 := ih (b.apply op) _ (apply_consumerInv b k op h)
    have e : k + List.count BufferOp.consumerTerminated [op] +
        BufferOp.consumerTerminated.occurrences rest =
        k + BufferOp.consumerTerminated.occurrences (op :: rest) := by
      simp only [BufferOp.occurrences, List.count_cons, List.count_nil]
      omega
    rw [e] at h1
    exact h1

theorem init_producerInv (ops : List BufferOp) :
    ProducerInv (Buffer.init.run ops) (BufferOp.producerTerminated.occurrences ops) := by
  have h := run_producerInv ops Buffer.init 0 (by simp [ProducerInv, Buffer.init, NPRODS])
  simpa using h

theorem init_consumerInv (ops : List BufferOp) :
    ConsumerInv (Buffer.init.run ops) (BufferOp.consumerTerminated.occurrences ops) := by
  have h := run_consumerInv ops Buffer.init 0 (by simp [ConsumerInv, Buffer.init, NCONS])
  simpa using h

theorem apply_noActiveProducer (b : Buffer) (op : BufferOp) (h : b.noActiveProducer = true) :
    (b.apply op).noActiveProducer = true := by
  cases op <;>
    simp only [Buffer.apply, Buffer.put, Buffer.get, Buffer.producerTerminated,
      Buffer.consumerTerminated, beq_iff_eq] <;>
    split_ifs <;> simp_all

theorem apply_noActiveConsumer (b : Buffer) (op : BufferOp) (h : b.noActiveConsumer = true) :
    (b.apply op).noActiveConsumer = true := by
  cases op <;>
    simp only [Buffer.apply, Buffer.put, Buffer.get, Buffer.producerTerminated,
      Buffer.consumerTerminated, beq_iff_eq] <;>
    split_ifs <;> simp_all

theorem run_noActiveProducer (ops : List BufferOp) :
    ∀ b : Buffer, b.noActiveProducer = true → (b.run ops).noActiveProducer = true := by
  induction ops with
  | nil => intro b h; exact h
  | cons op rest ih => intro b h; exact ih _ (apply_noActiveProducer b op h)

theorem run_noActiveConsumer (ops : List BufferOp) :
    ∀ b : Buffer, b.noActiveConsumer = true → (b.run ops).noActiveConsumer = true := by
  induction ops with
  | nil => intro b h; exact h
  | cons op rest ih => intro b h; exact ih _ (apply_noActiveConsumer b op h)

end Buffer

/-- C1 (buffer bounds): after every finite sequence of put, get,
producerTerminated and consumerTerminated calls on the constructed Buffer,
taken as atomic steps, `0 <= count <= 10`. -/
theorem C1_buffer_count_bounds (ops : List BufferOp) :
    0 ≤ (Buffer.init.run ops).count ∧ (Buffer.init.run ops).count ≤ 10 :=
  Buffer.run_count_bounds ops Buffer.init (by decide)

/-- C5 (termination latch): on the constructed Buffer, after any sequence of
calls, `noActiveProducer` is false while fewer than NPRODS of them are
`producerTerminated` and true when exactly NPRODS are; once true it stays true
after every further sequence of put, get, producerTerminated and
consumerTerminated calls.  The same for `noActiveConsumer`, NCONS and
`consumerTerminated`. -/
theorem C5_termination_latch (ops more : List BufferOp) :
    ((BufferOp.producerTerminated.occurrences ops : Int) < NPRODS →
        (Buffer.init.run ops).noActiveProducer = false) ∧
    ((BufferOp.producerTerminated.occurrences ops : Int) = NPRODS →
        (Buffer.init.run ops).noActiveProducer = true) ∧
    ((Buffer.init.run ops).noActiveProducer = true →
        (Buffer.init.run (ops ++ more)).noActiveProducer = true) ∧
    ((BufferOp.consumerTerminated.occurrences ops : Int) < NCONS →
        (Buffer.init.run ops).noActiveConsumer = false) ∧
    ((BufferOp.consumerTerminated.occurrences ops : Int) = NCONS →
        (Buffer.init.run ops).noActiveConsumer = true) ∧
    ((Buffer.init.run ops).noActiveConsumer = true →
        (Buffer.init.run (ops ++ more)).noActiveConsumer = true) := by
  obtain ⟨_, hp⟩ := Buffer.init_producerInv ops
  obtain ⟨_, hc⟩ := Buffer.init_consumerInv ops
  refine ⟨?_, ?_, ?_, ?_, ?_, ?_⟩
  · intro h
    cases hv : (Buffer.init.run ops).noActiveProducer with
    | false => rfl
    | true => have := hp.mp hv; omega
  · intro h
    exact hp.mpr (le_of_eq h.symm)
  · intro h
    rw [Buffer.run_append]
    exact Buffer.run_noActiveProducer more _ h
  · intro h
    cases hv : (Buffer.init.run ops).noActiveConsumer with
    | false => rfl
    | true => have := hc.mp hv; omega
  · intro h
    exact hc.mpr (le_of_eq h.symm)
  · intro h
    rw [Buffer.run_append]
    exact Buffer.run_noActiveConsumer more _ h

/-- Witness for C5: three `producerTerminated` and two `consumerTerminated`
calls interleaved with a put and a get, followed by one more call of each
kind. -/
theorem C5_termination_latch_witness :
    (Buffer.init.run [BufferOp.producerTerminated, BufferOp.put]).noActiveProducer = false ∧
    (Buffer.init.run [BufferOp.producerTerminated, BufferOp.put, BufferOp.producerTerminated,
        BufferOp.consumerTerminated, BufferOp.producerTerminated, BufferOp.get,
        BufferOp.consumerTerminated]).noActiveProducer = true ∧
    (Buffer.init.run ([BufferOp.producerTerminated, BufferOp.put, BufferOp.producerTerminated,
        BufferOp.consumerTerminated, BufferOp.producerTerminated, BufferOp.get,
        BufferOp.consumerTerminated] ++ [BufferOp.producerTerminated, BufferOp.put,
        BufferOp.get, BufferOp.consumerTerminated])).noActiveProducer = true ∧
    (Buffer.init.run [BufferOp.producerTerminated, BufferOp.put]).noActiveConsumer = false ∧
    (Buffer.init.run [BufferOp.producerTerminated, BufferOp.put, BufferOp.producerTerminated,
        BufferOp.consumerTerminated, BufferOp.producerTerminated, BufferOp.get,
        BufferOp.consumerTerminated]).noActiveConsumer = true ∧
    (Buffer.init.run ([BufferOp.producerTerminated, BufferOp.put, BufferOp.producerTerminated,
        BufferOp.consumerTerminated, BufferOp.producerTerminated, BufferOp.get,
        BufferOp.consumerTerminated] ++ [BufferOp.producerTerminated, BufferOp.put,
        BufferOp.get, BufferOp.consumerTerminated])).noActiveConsumer = true :=
  ⟨(C5_termination_latch [BufferOp.producerTerminated, BufferOp.put] []).1 (by decide),
   (C5_termination_latch [BufferOp.producerTerminated, BufferOp.put,
      BufferOp.producerTerminated, BufferOp.consumerTerminated, BufferOp.producerTerminated,
      BufferOp.get, BufferOp.consumerTerminated] []).2.1 (by decide),
   (C5_termination_latch [BufferOp.producerTerminated, BufferOp.put,
      BufferOp.producerTerminated, BufferOp.consumerTerminated, BufferOp.producerTerminated,
      BufferOp.get, BufferOp.consumerTerminated]
      [BufferOp.producerTerminated, BufferOp.put, BufferOp.get,
        BufferOp.consumerTerminated]).2.2.1 (by decide),
   (C5_termination_latch [BufferOp.producerTerminated, BufferOp.put] []).2.2.2.1 (by decide),
   (C5_termination_latch [BufferOp.producerTerminated, BufferOp.put,
      BufferOp.producerTerminated, BufferOp.consumerTerminated, BufferOp.producerTerminated,
      BufferOp.get, BufferOp.consumerTerminated] []).2.2.2.2.1 (by decide),
   (C5_termination_latch [BufferOp.producerTerminated, BufferOp.put,
      BufferOp.producerTerminated, BufferOp.consumerTerminated, BufferOp.producerTerminated,
      BufferOp.get, BufferOp.consumerTerminated]
      [BufferOp.producerTerminated, BufferOp.put, BufferOp.get,
        BufferOp.consumerTerminated]).2.2.2.2.2 (by decide)⟩

/-- C6, the claim as stated fails: four `producerTerminated` calls on the
constructed Buffer (one more than NPRODS) leave `activeProducers` at -1, and
three `consumerTerminated` calls leave `activeConsumers` at -1. -/
theorem C6_unguarded_counter_counterexample :
    (Buffer.init.run [BufferOp.producerTerminated, BufferOp.producerTerminated,
        BufferOp.producerTerminated, BufferOp.producerTerminated]).activeProducers = -1 ∧
    ¬ (0 ≤ (Buffer.init.run [BufferOp.producerTerminated, BufferOp.producerTerminated,
        BufferOp.producerTerminated, BufferOp.producerTerminated]).activeProducers) ∧
    (Buffer.init.run [BufferOp.consumerTerminated, BufferOp.consumerTerminated,
        BufferOp.consumerTerminated]).activeConsumers = -1 ∧
    ¬ (0 ≤ (Buffer.init.run [BufferOp.consumerTerminated, BufferOp.consumerTerminated,
        BufferOp.consumerTerminated]).activeConsumers) := by
  decide

/-- C6 as amended: after any sequence of calls on the constructed Buffer of
which `n` are `producerTerminated`, with `n <= NPRODS - INT_MIN` (so that no
decrement leaves the range of `int`), `activeProducers` is `NPRODS - n`: each
call decrements it and there is no guard.  It is therefore non-negative
whenever `n <= NPRODS` and negative for `NPRODS < n <= NPRODS - INT_MIN`.  The
same for `activeConsumers`, NCONS and `consumerTerminated`. -/
theorem C6_counter_tracks_calls (ops : List BufferOp) :
    ((BufferOp.producerTerminated.occurrences ops : Int) ≤ NPRODS - INT_MIN →
        (Buffer.init.run ops).activeProducers =
          NPRODS - (BufferOp.producerTerminated.occurrences ops : Int)) ∧
    ((BufferOp.producerTerminated.occurrences ops : Int) ≤ NPRODS →
        0 ≤ (Buffer.init.run ops).activeProducers) ∧
    (NPRODS < (BufferOp.producerTerminated.occurrences ops : Int) ∧
      (BufferOp.producerTerminated.occurrences ops : Int) ≤ NPRODS - INT_MIN →
        (Buffer.init.run ops).activeProducers < 0) ∧
    ((BufferOp.consumerTerminated.occurrences ops : Int) ≤ NCONS - INT_MIN →
        (Buffer.init.run ops).activeConsumers =
          NCONS - (BufferOp.consumerTerminated.occurrences ops : Int)) ∧
    ((BufferOp.consumerTerminated.occurrences ops : Int) ≤ NCONS →
        0 ≤ (Buffer.init.run ops).activeConsumers) ∧
    (NCONS < (BufferOp.consumerTerminated.occurrences ops : Int) ∧
      (BufferOp.consumerTerminated.occurrences ops : Int) ≤ NCONS - INT_MIN →
        (Buffer.init.run ops).activeConsumers < 0) := by
  obtain ⟨hp, _⟩ := Buffer.init_producerInv ops
  obtain ⟨hc, _⟩ := Buffer.init_consumerInv ops
  simp only [NPRODS, NCONS, INT_MIN] at *
  refine ⟨hp, ?_, ?_, hc, ?_, ?_⟩
  · intro h; rw [hp (by omega)]; omega
  · intro h; rw [hp h.2]; omega
  · intro h; rw [hc (by omega)]; omega
  · intro h; rw [hc h.2]; omega

/-- Witness for the amended C6: with all three producers and both consumers
terminated both counters are 0; after one more call of each kind both are
-1. -/
theorem C6_counter_tracks_calls_witness :
    (Buffer.init.run [BufferOp.producerTerminated, BufferOp.consumerTerminated,
        BufferOp.producerTerminated, BufferOp.put, BufferOp.producerTerminated,
        BufferOp.consumerTerminated]).activeProducers = NPRODS - (3 : Nat) ∧
    0 ≤ (Buffer.init.run [BufferOp.producerTerminated, BufferOp.consumerTerminated,
        BufferOp.producerTerminated, BufferOp.put, BufferOp.producerTerminated,
        BufferOp.consumerTerminated]).activeProducers ∧
    (Buffer.init.run [BufferOp.producerTerminated, BufferOp.consumerTerminated,
        BufferOp.producerTerminated, BufferOp.put, BufferOp.producerTerminated,
        BufferOp.consumerTerminated, BufferOp.producerTerminated,
        BufferOp.consumerTerminated]).activeProducers < 0 ∧
    (Buffer.init.run [BufferOp.producerTerminated, BufferOp.consumerTerminated,
        BufferOp.producerTerminated, BufferOp.put, BufferOp.producerTerminated,
        BufferOp.consumerTerminated]).activeConsumers = NCONS - (2 : Nat) ∧
    0 ≤ (Buffer.init.run [BufferOp.producerTerminated, BufferOp.consumerTerminated,
        BufferOp.producerTerminated, BufferOp.put, BufferOp.producerTerminated,
        BufferOp.consumerTerminated]).activeConsumers ∧
    (Buffer.init.run [BufferOp.producerTerminated, BufferOp.consumerTerminated,
        BufferOp.producerTerminated, BufferOp.put, BufferOp.producerTerminated,
        BufferOp.consumerTerminated, BufferOp.producerTerminated,
        BufferOp.consumerTerminated]).activeConsumers < 0 :=
  ⟨(C6_counter_tracks_calls [BufferOp.producerTerminated, BufferOp.consumerTerminated,
        BufferOp.producerTerminated, BufferOp.put, BufferOp.producerTerminated,
        BufferOp.consumerTerminated]).1 (by decide),
   (C6_counter_tracks_calls [BufferOp.producerTerminated, BufferOp.consumerTerminated,
        BufferOp.producerTerminated, BufferOp.put, BufferOp.producerTerminated,
        BufferOp.consumerTerminated]).2.1 (by decide),
   (C6_counter_tracks_calls [BufferOp.producerTerminated, BufferOp.consumerTerminated,
        BufferOp.producerTerminated, BufferOp.put, BufferOp.producerTerminated,
        BufferOp.consumerTerminated, BufferOp.producerTerminated,
        BufferOp.consumerTerminated]).2.2.1 (by decide),
   (C6_counter_tracks_calls [BufferOp.producerTerminated, BufferOp.consumerTerminated,
        BufferOp.producerTerminated, BufferOp.put, BufferOp.producerTerminated,
        BufferOp.consumerTerminated]).2.2.2.1 (by decide),
   (C6_counter_tracks_calls [BufferOp.producerTerminated, BufferOp.consumerTerminated,
        BufferOp.producerTerminated, BufferOp.put, BufferOp.producerTerminated,
        BufferOp.consumerTerminated]).2.2.2.2.1 (by decide),
   (C6_counter_tracks_calls [BufferOp.producerTerminated, BufferOp.consumerTerminated,
        BufferOp.producerTerminated, BufferOp.put, BufferOp.producerTerminated,
        BufferOp.consumerTerminated, BufferOp.producerTerminated,
        BufferOp.consumerTerminated]).2.2.2.2.2 (by decide)⟩

namespace Buffer

theorem putResume_fst (b : Buffer) : (b.putResume).1 = b := by
  unfold Buffer.putResume; split_ifs <;> rfl

theorem getResume_fst (b : Buffer) : (b.getResume).1 = b := by
  unfold Buffer.getResume; split_ifs <;> rfl

theorem putLoop_spec (env : List (List BufferOp)) :
    ∀ (b : Buffer) (k : Nat), ∃ j : Nat, j ≤ env.length ∧
      (Buffer.putLoop b env k).2.2 = k + j ∧
      (Buffer.putLoop b env k).1 = b.run (env.take j).flatten := by
  induction env with
  | nil => intro b k; exact ⟨0, le_refl _, rfl, rfl⟩
  | cons batch rest ih =>
    intro b k
    have hfst := putResume_fst (b.run batch)
    unfold Buffer.putLoop
    rcases hres : (b.run batch).putResume with ⟨b1, st⟩
    rw [hres] at hfst
    simp only at hfst
    subst hfst
    cases st with
    | returned =>
      refine ⟨1, by simp, rfl, ?_⟩
      simp
    | waiting =>
      obtain ⟨j, hj, h1, h2⟩ := ih (b.run batch) (k + 1)
      refine ⟨j + 1, by simpa using hj, ?_, ?_⟩
      · simp only [h1]; omega
      · simp only [h2, List.take_succ_cons, List.flatten_cons, Buffer.run_append]

theorem getLoop_spec (env : List (List BufferOp)) :
    ∀ (b : Buffer) (k : Nat), ∃ j : Nat, j ≤ env.length ∧
      (Buffer.getLoop b env k).2.2 = k + j ∧
      (Buffer.getLoop b env k).1 = b.run (env.take j).flatten := by
  induction env with
  | nil => intro b k; exact ⟨0, le_refl _, rfl, rfl⟩
  | cons batch rest ih =>
    intro b k
    have hfst := getResume_fst (b.run batch)
    unfold Buffer.getLoop
    rcases hres : (b.run batch).getResume with ⟨b1, st⟩
    rw [hres] at hfst
    simp only at hfst
    subst hfst
    cases st with
    | returned =>
      refine ⟨1, by simp, rfl, ?_⟩
      simp
    | waiting =>
      obtain ⟨j, hj, h1, h2⟩ := ih (b.run batch) (k + 1)
      refine ⟨j + 1, by simpa using hj, ?_, ?_⟩
      · simp only [h1]; omega
      · simp only [h2, List.take_succ_cons, List.flatten_cons, Buffer.run_append]

end Buffer

/-- C8 (put/get transition): with `count < 10`, put returns having increased
`count` by exactly 1; with `count > 0`, get returns having decreased `count`
by exactly 1; in both cases the four other fields are unchanged; and
producerTerminated and consumerTerminated never change `count`. -/
theorem C8_put_get_transition (b : Buffer) :
    (b.count < 10 →
      b.put = ({ b with count := b.count + 1 }, Status.returned) ∧
      (b.put).1.count = b.count + 1 ∧
      (b.put).1.activeProducers = b.activeProducers ∧
      (b.put).1.activeConsumers = b.activeConsumers ∧
      (b.put).1.noActiveProducer = b.noActiveProducer ∧
      (b.put).1.noActiveConsumer = b.noActiveConsumer) ∧
    (0 < b.count →
      b.get = ({ b with count := b.count - 1 }, Status.returned) ∧
      (b.get).1.count = b.count - 1 ∧
      (b.get).1.activeProducers = b.activeProducers ∧
      (b.get).1.activeConsumers = b.activeConsumers ∧
      (b.get).1.noActiveProducer = b.noActiveProducer ∧
      (b.get).1.noActiveConsumer = b.noActiveConsumer) ∧
    b.producerTerminated.count = b.count ∧
    b.consumerTerminated.count = b.count := by
  refine ⟨?_, ?_, ?_, ?_⟩
  · intro h
    have hne : ¬ b.count = 10 := by omega
    simp [Buffer.put, hne]
  · intro h
    have hne : ¬ b.count = 0 := by omega
    simp [Buffer.get, hne]
  · unfold Buffer.producerTerminated; simp only; split_ifs <;> rfl
  · unfold Buffer.consumerTerminated; simp only; split_ifs <;> rfl

/-- Witness for C8: a put on the constructed Buffer (count 0 to 1), then a get
on the result (count 1 to 0). -/
theorem C8_put_get_transition_witness :
    (Buffer.init.put = ({ Buffer.init with count := Buffer.init.count + 1 }, Status.returned)) ∧
    ((Buffer.init.put).1.get =
      ({ (Buffer.init.put).1 with count := (Buffer.init.put).1.count - 1 }, Status.returned)) :=
  ⟨((C8_put_get_transition Buffer.init).1 (by decide)).1,
   ((C8_put_get_transition (Buffer.init.put).1).2.1 (by decide)).1⟩

/-- C7 (shutdown never blocks): when `noActiveProducer` is true, the wait
condition of get is false, so get returns without waiting, at entry and at
every wake-up, and with `count == 0` it returns leaving `count` at 0; this
covers every state reached from the constructed Buffer by a sequence with at
least NPRODS `producerTerminated` calls.  Symmetrically for put with
`noActiveConsumer` and `count == 10`. -/
theorem C7_shutdown_never_blocks (b : Buffer) (env : List (List BufferOp))
    (ops : List BufferOp) :
    (b.noActiveProducer = true →
      ((b.count == 0) && !b.noActiveProducer) = false ∧
      (b.get).2 = Status.returned ∧
      b.getResume = (b, Status.returned) ∧
      (b.getCall env).2 = (Status.returned, 0) ∧
      (b.count = 0 → b.get = (b, Status.returned) ∧ (b.get).1.count = 0)) ∧
    (NPRODS ≤ (BufferOp.producerTerminated.occurrences ops : Int) →
      ((Buffer.init.run ops).get).2 = Status.returned) ∧
    (b.noActiveConsumer = true →
      ((b.count == 10) && !b.noActiveConsumer) = false ∧
      (b.put).2 = Status.returned ∧
      b.putResume = (b, Status.returned) ∧
      (b.putCall env).2 = (Status.returned, 0) ∧
      (b.count = 10 → b.put = (b, Status.returned) ∧ (b.put).1.count = 10)) ∧
    (NCONS ≤ (BufferOp.consumerTerminated.occurrences ops : Int) →
      ((Buffer.init.run ops).put).2 = Status.returned) := by
  have hget : ∀ c : Buffer, c.noActiveProducer = true → (c.get).2 = Status.returned := by
    intro c hc
    simp only [Buffer.get, hc]
    split_ifs <;> simp_all
  have hput : ∀ c : Buffer, c.noActiveConsumer = true → (c.put).2 = Status.returned := by
    intro c hc
    simp only [Buffer.put, hc]
    split_ifs <;> simp_all
  refine ⟨?_, ?_, ?_, ?_⟩
  · intro h
    refine ⟨by simp [h], hget b h, by simp [Buffer.getResume, h], ?_, ?_⟩
    · have := hget b h
      unfold Buffer.getCall
      rcases hres : b.get with ⟨b1, st⟩
      rw [hres] at this
      simp only at this
      subst this
      rfl
    · intro h0
      simp [Buffer.get, h, h0]
  · intro h
    exact hget _ ((Buffer.init_producerInv ops).2.mpr h)
  · intro h
    refine ⟨by simp [h], hput b h, by simp [Buffer.putResume, h], ?_, ?_⟩
    · have := hput b h
      unfold Buffer.putCall
      rcases hres : b.put with ⟨b1, st⟩
      rw [hres] at this
      simp only at this
      subst this
      rfl
    · intro h0
      simp [Buffer.put, h, h0]
  · intro h
    exact hput _ ((Buffer.init_consumerInv ops).2.mpr h)

/-- Witness for C7: an empty Buffer whose three producers have terminated
(get returns at once, `count` stays 0), and a full Buffer whose two consumers
have terminated (put returns at once, `count` stays 10). -/
theorem C7_shutdown_never_blocks_witness :
    ((Buffer.init.run [BufferOp.producerTerminated, BufferOp.producerTerminated,
        BufferOp.producerTerminated]).get =
      (Buffer.init.run [BufferOp.producerTerminated, BufferOp.producerTerminated,
        BufferOp.producerTerminated], Status.returned) ∧
     ((Buffer.init.run [BufferOp.producerTerminated, BufferOp.producerTerminated,
        BufferOp.producerTerminated]).get).1.count = 0) ∧
    ((Buffer.init.run [BufferOp.producerTerminated, BufferOp.producerTerminated,
        BufferOp.producerTerminated]).get).2 = Status.returned ∧
    ((Buffer.init.run (List.replicate 10 BufferOp.put ++
        [BufferOp.consumerTerminated, BufferOp.consumerTerminated])).put =
      (Buffer.init.run (List.replicate 10 BufferOp.put ++
        [BufferOp.consumerTerminated, BufferOp.consumerTerminated]), Status.returned) ∧
     ((Buffer.init.run (List.replicate 10 BufferOp.put ++
        [BufferOp.consumerTerminated, BufferOp.consumerTerminated])).put).1.count = 10) ∧
    ((Buffer.init.run (List.replicate 10 BufferOp.put ++
        [BufferOp.consumerTerminated, BufferOp.consumerTerminated])).put).2 = Status.returned :=
  ⟨((C7_shutdown_never_blocks
      (Buffer.init.run [BufferOp.producerTerminated, BufferOp.producerTerminated,
        BufferOp.producerTerminated]) [] []).1 (by decide)).2.2.2.2 (by decide),
   (C7_shutdown_never_blocks Buffer.init []
      [BufferOp.producerTerminated, BufferOp.producerTerminated,
        BufferOp.producerTerminated]).2.1 (by decide),
   ((C7_shutdown_never_blocks
      (Buffer.init.run (List.replicate 10 BufferOp.put ++
        [BufferOp.consumerTerminated, BufferOp.consumerTerminated])) [] []).2.2.1
      (by decide)).2.2.2.2 (by decide),
   (C7_shutdown_never_blocks Buffer.init []
      (List.replicate 10 BufferOp.put ++
        [BufferOp.consumerTerminated, BufferOp.consumerTerminated])).2.2.2 (by decide)⟩

/-- C9 (a put that finds the buffer full never enqueues): a put call entered
with `count == 10`, run against any environment, leaves the fields exactly as
the calls of the other threads that ran during its wait made them, so the call
itself writes nothing, however its wait ends; likewise a get call entered with
`count == 0`.  In particular a put entered on a full Buffer with both
consumers active returns, after one get of another thread, with `count == 9`
and `noActiveConsumer` still false: nothing was enqueued; and after both
consumers terminate it returns with `count == 10`. -/
theorem C9_full_put_never_enqueues (b : Buffer) (env : List (List BufferOp)) :
    (b.count = 10 →
      (b.put).1 = b ∧
      ∀ c : Buffer, (c.putResume).1 = c) ∧
    (b.count = 10 →
      ∃ j : Nat, j ≤ env.length ∧ (b.putCall env).2.2 = j ∧
        (b.putCall env).1 = b.run (env.take j).flatten) ∧
    (b.count = 0 →
      (b.get).1 = b ∧
      ∀ c : Buffer, (c.getResume).1 = c) ∧
    (b.count = 0 →
      ∃ j : Nat, j ≤ env.length ∧ (b.getCall env).2.2 = j ∧
        (b.getCall env).1 = b.run (env.take j).flatten) ∧
    ((Buffer.init.run (List.replicate 10 BufferOp.put)).count = 10 ∧
      (Buffer.init.run (List.replicate 10 BufferOp.put)).putCall [[BufferOp.get]] =
        ({ count := 9, activeProducers := 3, activeConsumers := 2,
           noActiveProducer := false, noActiveConsumer := false }, Status.returned, 1) ∧
      (Buffer.init.run (List.replicate 10 BufferOp.put)).putCall
          [[BufferOp.consumerTerminated], [BufferOp.consumerTerminated]] =
        ({ count := 10, activeProducers := 3, activeConsumers := 0,
           noActiveProducer := false, noActiveConsumer := true }, Status.returned, 2)) := by
  have hput : b.count = 10 → (b.put).1 = b := by
    intro h; simp only [Buffer.put, h]; split_ifs <;> simp_all
  have hget : b.count = 0 → (b.get).1 = b := by
    intro h; simp only [Buffer.get, h]; split_ifs <;> simp_all
  refine ⟨fun h => ⟨hput h, Buffer.putResume_fst⟩, ?_,
    fun h => ⟨hget h, Buffer.getResume_fst⟩, ?_, by decide⟩
  · intro h
    have h1 := hput h
    unfold Buffer.putCall
    rcases hres : b.put with ⟨b1, st⟩
    rw [hres] at h1
    simp only at h1
    subst h1
    cases st with
    | returned => exact ⟨0, Nat.zero_le _, rfl, rfl⟩
    | waiting =>
      obtain ⟨j, hj, e1, e2⟩ := Buffer.putLoop_spec env b1 0
      exact ⟨j, hj, by simpa using e1, e2⟩
  · intro h
    have h1 := hget h
    unfold Buffer.getCall
    rcases hres : b.get with ⟨b1, st⟩
    rw [hres] at h1
    simp only at h1
    subst h1
    cases st with
    | returned => exact ⟨0, Nat.zero_le _, rfl, rfl⟩
    | waiting =>
      obtain ⟨j, hj, e1, e2⟩ := Buffer.getLoop_spec env b1 0
      exact ⟨j, hj, by simpa using e1, e2⟩

/-- Witness for C9: the put entered on the full Buffer writes nothing at
entry, and the get entered on the constructed (empty) Buffer writes nothing at
entry. -/
theorem C9_full_put_never_enqueues_witness :
    ((Buffer.init.run (List.replicate 10 BufferOp.put)).put).1 =
      Buffer.init.run (List.replicate 10 BufferOp.put) ∧
    (Buffer.init.get).1 = Buffer.init :=
  ⟨((C9_full_put_never_enqueues (Buffer.init.run (List.replicate 10 BufferOp.put))
      [[BufferOp.get]]).1 (by decide)).1,
   ((C9_full_put_never_enqueues Buffer.init [[BufferOp.put]]).2.2.1 (by decide)).1⟩

/-! ## Lock and ADC: mutual exclusion -/

namespace AdcSys

theorem adc_inv_init (g : Int) : Inv (AdcSys.init g) := by
  simp [Inv, AdcSys.init, ADC.init, Lock.init]

theorem adc_inv_request (s : AdcSys) (caller : Nat) (channel : Int) (h : Inv s) :
    Inv (s.request caller channel) := by
  obtain ⟨h1, h2⟩ := h
  cases hopen : s.adc.theADCLock.isOpen with
  | true =>
    have e : s.request caller channel =
        { adc := { theADCLock := { isOpen := false }, sampleChannel := channel },
          holders := caller :: s.holders } := by
      simp [AdcSys.request, ADC.requestADC, Lock.lock, hopen]
    rw [e, h1 hopen]
    simp [Inv]
  | false =>
    have e : s.request caller channel = s := by
      simp [AdcSys.request, ADC.requestADC, Lock.lock, hopen]
    rw [e]
    exact ⟨h1, h2⟩

theorem adc_inv_release (s : AdcSys) (caller : Nat) (h : Inv s) (hc : caller ∈ s.holders) :
    Inv (s.release caller) := by
  obtain ⟨h1, h2⟩ := h
  cases hopen : s.adc.theADCLock.isOpen with
  | true => rw [h1 hopen] at hc; simp at hc
  | false =>
    obtain ⟨t, ht⟩ := h2 hopen
    rw [ht] at hc
    have e : caller = t := by simpa using hc
    subst e
    simp [Inv, AdcSys.release, ADC.releaseADC, Lock.unlock, ht]

theorem adc_inv_of_reachable {s : AdcSys} (h : Reachable s) : Inv s := by
  induction h with
  | init g => exact adc_inv_init g
  | request caller channel _ ih => exact adc_inv_request _ caller channel ih
  | release caller _ hc ih => exact adc_inv_release _ caller ih hc

end AdcSys

/-- C2 (mutual exclusion of the ADC): in every state reachable from the
freshly constructed ADC by `requestADC` steps and by `releaseADC` steps of the
current holder, at most one caller holds the ADC, and the lock is open exactly
when none does; `Lock::lock()` returns true exactly when `open` is true and
leaves `open` false, so a second `lock()` with no `unlock()` in between returns
false. -/
theorem C2_adc_mutual_exclusion :
    (∀ s : AdcSys, AdcSys.Reachable s →
      s.holders.length ≤ 1 ∧ (s.adc.theADCLock.isOpen = true ↔ s.holders = [])) ∧
    (∀ l : Lock, (l.lock).1 = l.isOpen ∧ (l.lock).2.isOpen = false) ∧
    (∀ l : Lock, ((l.lock).2.lock).1 = false) ∧
    (∀ (a : ADC) (channel : Int),
      ((a.requestADC channel).2 = Status.returned ↔ a.theADCLock.isOpen = true)) := by
  refine ⟨?_, ?_, ?_, ?_⟩
  · intro s hs
    obtain ⟨h1, h2⟩ := AdcSys.adc_inv_of_reachable hs
    cases hopen : s.adc.theADCLock.isOpen with
    | true => simp [h1 hopen]
    | false =>
      obtain ⟨t, ht⟩ := h2 hopen
      simp [ht]
  · intro l
    cases h : l.isOpen <;> simp [Lock.lock, h]
  · intro l
    cases h : l.isOpen <;> simp [Lock.lock, h]
  · intro a channel
    cases h : a.theADCLock.isOpen <;> simp [ADC.requestADC, Lock.lock, h]

/-- Witness for C2: caller 1 requests and gets the ADC, caller 2 requests and
is suspended, caller 1 releases, caller 2 wakes and gets it. -/
theorem C2_adc_mutual_exclusion_witness :
    (((((AdcSys.init 0).request 1 1).request 2 2).release 1).request 2 2).holders.length ≤ 1 ∧
    ((((((AdcSys.init 0).request 1 1).request 2 2).release 1).request 2 2).adc.theADCLock.isOpen
        = true ↔
      (((((AdcSys.init 0).request 1 1).request 2 2).release 1).request 2 2).holders = []) :=
  C2_adc_mutual_exclusion.1 _
    (AdcSys.Reachable.request 2 2
      (AdcSys.Reachable.release 1
        (AdcSys.Reachable.request 2 2
          (AdcSys.Reachable.request 1 1 (AdcSys.Reachable.init 0)))
        (by decide)))

/-! ## Link pool: the scan and the release -/

namespace LinkAccessController

theorem wellFormed_init : WellFormed LinkAccessController.init := by
  decide

/-- A well-formed table is the three links with ids 0, 1, 2. -/
theorem wellFormed_links (c : LinkAccessController) (h : WellFormed c) :
    ∃ a0 a1 a2 : Bool, c.commsLinks =
      [{ inUse := a0, linkId := 0 }, { inUse := a1, linkId := 1 }, { inUse := a2, linkId := 2 }] := by
  unfold WellFormed at h
  match hc : c.commsLinks with
  | [] => rw [hc] at h; simp [NUM_OF_LINKS, List.range_succ] at h
  | [_] => rw [hc] at h; simp [NUM_OF_LINKS, List.range_succ] at h
  | [_, _] => rw [hc] at h; simp [NUM_OF_LINKS, List.range_succ] at h
  | _ :: _ :: _ :: _ :: _ => rw [hc] at h; simp [NUM_OF_LINKS, List.range_succ] at h
  | [l0, l1, l2] =>
    rw [hc] at h
    obtain ⟨a0, i0⟩ := l0
    obtain ⟨a1, i1⟩ := l1
    obtain ⟨a2, i2⟩ := l2
    simp [NUM_OF_LINKS, List.range_succ, Link.getLinkId] at h
    obtain ⟨h0, h1, h2⟩ := h
    subst h0 h1 h2
    exact ⟨a0, a1, a2, rfl⟩

theorem wellFormed_length (c : LinkAccessController) (h : WellFormed c) :
    c.commsLinks.length = NUM_OF_LINKS := by
  obtain ⟨a0, a1, a2, hl⟩ := wellFormed_links c h
  rw [hl]
  rfl

theorem wellFormed_getElem (c : LinkAccessController) (h : WellFormed c) (i : Nat) (l : Link)
    (hl : c.commsLinks[i]? = some l) : l.getLinkId = (i : Int) := by
  obtain ⟨a0, a1, a2, hc⟩ := wellFormed_links c h
  rw [hc] at hl
  have hi : i < 3 := by
    by_contra hge
    rw [List.getElem?_eq_none (by simp; omega)] at hl
    cases hl
  interval_cases i <;> simp at hl <;> subst hl <;> rfl

/-- What one pass of `requestLink` does on a well-formed table: with every
link in use it suspends having written nothing; otherwise it returns the copy
of the free link of least index `k`, marked in use, and has written that mark
at index `k` only. -/
theorem requestLink_spec (c : LinkAccessController) (h : WellFormed c) :
    ((∀ i : Nat, ¬ c.isFree i) ∧ c.requestLink = RequestResult.waiting c) ∨
    (∃ k : Nat, k < NUM_OF_LINKS ∧
      c.commsLinks[k]? = some { inUse := false, linkId := (k : Int) } ∧
      (∀ j : Nat, j < k → c.commsLinks[j]? = some { inUse := true, linkId := (j : Int) }) ∧
      c.requestLink = RequestResult.granted
        { c with commsLinks := c.commsLinks.set k { inUse := true, linkId := (k : Int) } }
        { inUse := true, linkId := (k : Int) }) := by
  obtain ⟨a0, a1, a2, hl⟩ := wellFormed_links c h
  obtain ⟨n, links⟩ := c
  simp only at hl
  subst hl
  cases a0 with
  | false =>
    right
    refine ⟨0, by decide, rfl, ?_, ?_⟩
    · intro j hj; omega
    · simp [requestLink, scanLinks, vectorAt, NUM_OF_LINKS, Link.isInUse, Link.setInUse,
        Link.getLinkId]
  | true =>
    cases a1 with
    | false =>
      right
      refine ⟨1, by decide, rfl, ?_, ?_⟩
      · intro j hj
        interval_cases j
        rfl
      · simp [requestLink, scanLinks, vectorAt, NUM_OF_LINKS, Link.isInUse, Link.setInUse,
          Link.getLinkId]
    | true =>
      cases a2 with
      | false =>
        right
        refine ⟨2, by decide, rfl, ?_, ?_⟩
        · intro j hj
          interval_cases j <;> rfl
        · simp [requestLink, scanLinks, vectorAt, NUM_OF_LINKS, Link.isInUse, Link.setInUse,
            Link.getLinkId]
      | true =>
        left
        refine ⟨?_, ?_⟩
        · intro i hfree
          unfold isFree at hfree
          have hi : i < 3 := by
            by_contra hge
            rw [List.getElem?_eq_none (by simp; omega)] at hfree
            simp at hfree
          interval_cases i <;> simp [Link.isInUse] at hfree
        · simp [requestLink, scanLinks, NUM_OF_LINKS, Link.isInUse]

/-- What `releaseLink` does on a well-formed table with a handle whose id is
an index of the table: the link at that index is marked free. -/
theorem releaseLink_spec (c : LinkAccessController) (h : WellFormed c) (k : Nat)
    (hk : k < NUM_OF_LINKS) (u : Bool) :
    c.releaseLink { inUse := u, linkId := (k : Int) } =
      some { c with commsLinks := c.commsLinks.set k { inUse := false, linkId := (k : Int) } } := by
  have hk2 : k < c.commsLinks.length := by rw [wellFormed_length c h]; exact hk
  have hget : c.commsLinks[k]? = some (c.commsLinks[k]) := List.getElem?_eq_getElem hk2
  have hidk := wellFormed_getElem c h k _ hget
  have hv : vectorAt c.commsLinks (k : Int) = some (c.commsLinks[k]) := by
    simp [vectorAt, hk2, hget]
  simp only [releaseLink, Link.getLinkId, hv, Int.toNat_ofNat, Link.setInUse]
  congr 3
  simp only [Link.getLinkId] at hidk
  rw [hidk]

theorem wellFormed_set (c : LinkAccessController) (h : WellFormed c) (k : Nat) (u : Bool) :
    WellFormed { c with commsLinks := c.commsLinks.set k { inUse := u, linkId := (k : Int) } } := by
  unfold WellFormed at h ⊢
  rw [← h]
  simp only [List.map_set]
  by_cases hk : k < c.commsLinks.length
  · apply List.ext_getElem? 
    intro i
    by_cases hik : k = i
    · subst hik
      rw [List.getElem?_set_self (by simpa using hk)]
      have hget : c.commsLinks[k]? = some (c.commsLinks[k]) := List.getElem?_eq_getElem hk
      rw [List.getElem?_map, hget]
      simp only [Option.map_some', Link.getLinkId]
      have := wellFormed_getElem c h k _ hget
      simp only [Link.getLinkId] at this
      rw [this]
    · rw [List.getElem?_set_ne hik]
  · rw [List.set_eq_of_length_le (by simpa using hk)]

theorem inUseCount_le (c : LinkAccessController) : c.inUseCount ≤ c.commsLinks.length :=
  List.countP_le_length _

theorem inUseCount_set_true (c : LinkAccessController) (h : WellFormed c) (k : Nat)
    (hk : c.commsLinks[k]? = some { inUse := false, linkId := (k : Int) }) :
    inUseCount { c with commsLinks := c.commsLinks.set k { inUse := true, linkId := (k : Int) } } =
      c.inUseCount + 1 := by
  obtain ⟨a0, a1, a2, hl⟩ := wellFormed_links c h
  obtain ⟨n, links⟩ := c
  simp only at hl
  subst hl
  have hk3 : k < 3 := by
    by_contra hge
    rw [List.getElem?_eq_none (by simp; omega)] at hk
    cases hk
  interval_cases k <;> simp at hk <;> subst hk <;>
    simp [inUseCount, List.countP_cons, Link.isInUse] <;> omega

theorem inUseCount_set_false (c : LinkAccessController) (h : WellFormed c) (k : Nat)
    (hk : c.commsLinks[k]? = some { inUse := true, linkId := (k : Int) }) :
    c.inUseCount =
      inUseCount { c with commsLinks := c.commsLinks.set k { inUse := false, linkId := (k : Int) } }
        + 1 := by
  obtain ⟨a0, a1, a2, hl⟩ := wellFormed_links c h
  obtain ⟨n, links⟩ := c
  simp only at hl
  subst hl
  have hk3 : k < 3 := by
    by_contra hge
    rw [List.getElem?_eq_none (by simp; omega)] at hk
    cases hk
  interval_cases k <;> simp at hk <;> subst hk <;>
    simp [inUseCount, List.countP_cons, Link.isInUse] <;> omega

end LinkAccessController

namespace PoolSys

theorem pool_inv_init : Inv PoolSys.init := by
  refine ⟨LinkAccessController.wellFormed_init, ?_, ?_, ?_⟩
  · intro p hp; simp [PoolSys.init] at hp
  · simp [PoolSys.heldIds, PoolSys.init]
  · rfl

/-- The two ways a `requestLink` step goes on a well-formed table. -/
theorem request_cases (s : PoolSys) (hwf : s.lac.WellFormed) (caller : Nat) :
    ((∀ i : Nat, ¬ s.lac.isFree i) ∧ s.lac.requestLink = RequestResult.waiting s.lac ∧
      s.request caller = some s) ∨
    (∃ k : Nat, k < NUM_OF_LINKS ∧
      s.lac.commsLinks[k]? = some { inUse := false, linkId := (k : Int) } ∧
      (∀ j : Nat, j < k → s.lac.commsLinks[j]? = some { inUse := true, linkId := (j : Int) }) ∧
      s.lac.requestLink = RequestResult.granted
        { s.lac with commsLinks := s.lac.commsLinks.set k { inUse := true, linkId := (k : Int) } }
        { inUse := true, linkId := (k : Int) } ∧
      s.request caller = some
        { lac := { s.lac with
                    commsLinks := s.lac.commsLinks.set k { inUse := true, linkId := (k : Int) } }
          held := (caller, { inUse := true, linkId := (k : Int) }) :: s.held }) := by
  rcases LinkAccessController.requestLink_spec s.lac hwf with ⟨hfull, hreq⟩ | ⟨k, hk, hfree, hlow, hreq⟩
  · left
    exact ⟨hfull, hreq, by simp [PoolSys.request, hreq]⟩
  · right
    exact ⟨k, hk, hfree, hlow, hreq, by simp [PoolSys.request, hreq]⟩

theorem pool_inv_request (s s' : PoolSys) (caller : Nat) (h : Inv s)
    (hstep : s.request caller = some s') : Inv s' := by
  obtain ⟨hwf, hheld, hnd, hcnt⟩ := h
  rcases request_cases s hwf caller with ⟨_, _, hreq⟩ | ⟨k, hk, hfree, _, _, hreq⟩
  · rw [hreq] at hstep
    cases hstep
    exact ⟨hwf, hheld, hnd, hcnt⟩
  · rw [hreq] at hstep
    cases hstep
    have hklen : k < s.lac.commsLinks.length := by
      rw [LinkAccessController.wellFormed_length s.lac hwf]; exact hk
    refine ⟨LinkAccessController.wellFormed_set s.lac hwf k true, ?_, ?_, ?_⟩
    · intro p hp
      rcases List.mem_cons.mp hp with rfl | hp
      · exact ⟨k, hk, rfl, by simp [List.getElem?_set_self hklen]⟩
      · obtain ⟨j, hj, hpj, htab⟩ := hheld p hp
        have hne : k ≠ j := by
          rintro rfl
          rw [hfree] at htab
          simp at htab
        exact ⟨j, hj, hpj, by simp only [List.getElem?_set_ne hne]; exact htab⟩
    · simp only [PoolSys.heldIds, List.map_cons, List.nodup_cons]
      refine ⟨?_, hnd⟩
      intro hmem
      obtain ⟨p, hp, hpid⟩ := List.mem_map.mp hmem
      obtain ⟨j, hj, hpj, htab⟩ := hheld p hp
      rw [hpj] at hpid
      simp only [Link.getLinkId] at hpid
      have : j = k := by exact_mod_cast hpid
      subst this
      rw [hfree] at htab
      simp at htab
    · simp only [List.length_cons]
      rw [← hcnt]
      exact LinkAccessController.inUseCount_set_true s.lac hwf k hfree

/-- What a `releaseLink` step of a held handle does. -/
theorem release_held (s : PoolSys) (h : Inv s) (caller : Nat) (handle : Link)
    (hmem : (caller, handle) ∈ s.held) :
    ∃ k : Nat, k < NUM_OF_LINKS ∧ handle = { inUse := true, linkId := (k : Int) } ∧
      s.lac.commsLinks[k]? = some { inUse := true, linkId := (k : Int) } ∧
      s.release caller handle = some
        { lac := { s.lac with
                    commsLinks := s.lac.commsLinks.set k { inUse := false, linkId := (k : Int) } }
          held := s.held.erase (caller, handle) } := by
  obtain ⟨hwf, hheld, _, _⟩ := h
  obtain ⟨k, hk, hp, htab⟩ := hheld _ hmem
  simp only at hp
  subst hp
  refine ⟨k, hk, rfl, htab, ?_⟩
  simp [PoolSys.release, LinkAccessController.releaseLink_spec s.lac hwf k hk true]

theorem pool_inv_release (s s' : PoolSys) (caller : Nat) (handle : Link) (h : Inv s)
    (hmem : (caller, handle) ∈ s.held) (hstep : s.release caller handle = some s') :
    Inv s' := by
  obtain ⟨k, hk, hh, htabk, hrel⟩ := release_held s h caller handle hmem
  obtain ⟨hwf, hheld, hnd, hcnt⟩ := h
  rw [hrel] at hstep
  cases hstep
  have hnd2 : s.held.Nodup := List.Nodup.of_map _ hnd
  refine ⟨LinkAccessController.wellFormed_set s.lac hwf k false, ?_, ?_, ?_⟩
  · intro p hp
    have hp2 := (List.Nodup.mem_erase_iff hnd2).mp hp
    obtain ⟨hpne, hpmem⟩ := hp2
    obtain ⟨j, hj, hpj, htab⟩ := hheld p hpmem
    have hne : k ≠ j := by
      rintro rfl
      apply hpne
      have hinj := List.inj_on_of_nodup_map hnd hpmem hmem
      apply hinj
      rw [hpj, hh]
    exact ⟨j, hj, hpj, by simp only [List.getElem?_set_ne hne]; exact htab⟩
  · exact List.Nodup.sublist (List.Sublist.map _ (List.erase_sublist _ _)) hnd
  · simp only
    rw [List.length_erase_of_mem hmem]
    have hc := LinkAccessController.inUseCount_set_false s.lac hwf k htabk
    omega

theorem pool_inv_of_reachable {s : PoolSys} (h : Reachable s) : Inv s := by
  induction h with
  | init => exact pool_inv_init
  | request caller _ hstep ih => exact pool_inv_request _ _ caller ih hstep
  | release caller handle _ hmem hstep ih => exact pool_inv_release _ _ caller handle ih hmem hstep

end PoolSys

namespace PoolSys

/-- Distinct ids below `NUM_OF_LINKS` are at most `NUM_OF_LINKS` many. -/
theorem held_length_le (s : PoolSys) (h : Inv s) : s.held.length ≤ NUM_OF_LINKS := by
  obtain ⟨hwf, _, _, hcnt⟩ := h
  rw [← hcnt, ← LinkAccessController.wellFormed_length s.lac hwf]
  exact LinkAccessController.inUseCount_le s.lac

end PoolSys

/-- C3 (pool capacity invariant): in every state reached from the constructed
LinkAccessController by `requestLink` steps and by `releaseLink` steps of a
handle held by the caller, the links with `inUse == true` are at most
NUM_OF_LINKS, they are as many as the outstanding handles, the outstanding
handles have pairwise distinct link ids, and a handle that `requestLink`
returns in that state has an id that no outstanding handle has. -/
theorem C3_pool_capacity_invariant (s : PoolSys) (hs : PoolSys.Reachable s) :
    s.lac.inUseCount ≤ NUM_OF_LINKS ∧
    s.lac.inUseCount = s.held.length ∧
    s.held.length ≤ NUM_OF_LINKS ∧
    s.heldIds.Nodup ∧
    List.Pairwise (fun p q : Nat × Link => p.2.getLinkId ≠ q.2.getLinkId) s.held ∧
    (∀ (lac : LinkAccessController) (handle : Link),
      s.lac.requestLink = RequestResult.granted lac handle →
        handle.getLinkId ∉ s.heldIds) := by
  have hinv := PoolSys.pool_inv_of_reachable hs
  have hlen := PoolSys.held_length_le s hinv
  obtain ⟨hwf, hheld, hnd, hcnt⟩ := hinv
  refine ⟨by rw [hcnt]; exact hlen, hcnt, hlen, hnd, ?_, ?_⟩
  · have := hnd
    unfold PoolSys.heldIds at this
    exact (List.pairwise_map.mp this)
  · intro lac handle hreq hmem
    rcases LinkAccessController.requestLink_spec s.lac hwf with
      ⟨_, hw⟩ | ⟨k, hk, hfree, _, hg⟩
    · rw [hw] at hreq
      cases hreq
    · rw [hg] at hreq
      cases hreq
      obtain ⟨p, hp, hpid⟩ := List.mem_map.mp hmem
      obtain ⟨j, hj, hpj, htab⟩ := hheld p hp
      rw [hpj] at hpid
      simp only [Link.getLinkId] at hpid
      have : j = k := by exact_mod_cast hpid
      subst this
      rw [hfree] at htab
      simp at htab

/-- Witness for C3: callers 7 and 8 each hold a link, caller 7 releases its
link and caller 9 is then given it. -/
theorem C3_pool_capacity_invariant_witness :
    ∃ s : PoolSys,
      s = { lac := { numOfAvailableLinks := 3,
                     commsLinks := [{ inUse := true, linkId := 0 }, { inUse := true, linkId := 1 },
                                    { inUse := false, linkId := 2 }] },
            held := [(9, { inUse := true, linkId := 0 }), (8, { inUse := true, linkId := 1 })] } ∧
      s.lac.inUseCount ≤ NUM_OF_LINKS ∧ s.heldIds.Nodup :=
  ⟨_, rfl,
    (C3_pool_capacity_invariant _
      (PoolSys.Reachable.request 9
        (PoolSys.Reachable.release 7 { inUse := true, linkId := 0 }
          (PoolSys.Reachable.request 8
            (PoolSys.Reachable.request 7 PoolSys.Reachable.init (by rfl))
            (by rfl))
          (by decide) (by rfl))
        (by rfl))).1,
    (C3_pool_capacity_invariant _
      (PoolSys.Reachable.request 9
        (PoolSys.Reachable.release 7 { inUse := true, linkId := 0 }
          (PoolSys.Reachable.request 8
            (PoolSys.Reachable.request 7 PoolSys.Reachable.init (by rfl))
            (by rfl))
          (by decide) (by rfl))
        (by rfl))).2.2.2.1⟩

namespace LinkAccessController

/-- Marking a free link in use and then free again gives the table back. -/
theorem set_true_set_false (c : LinkAccessController) (k : Nat)
    (hk : c.commsLinks[k]? = some { inUse := false, linkId := (k : Int) }) :
    LinkAccessController.mk c.numOfAvailableLinks
      ((c.commsLinks.set k (Link.mk true (k : Int))).set k (Link.mk false (k : Int))) = c := by
  obtain ⟨n, links⟩ := c
  simp only at hk
  simp only [List.set_set, mk.injEq, true_and]
  apply List.ext_getElem?
  intro i
  by_cases hik : k = i
  · subst hik
    rw [List.getElem?_set_self', hk]
    rfl
  · rw [List.getElem?_set_ne hik]

theorem request_release_roundtrip (c : LinkAccessController) (h : WellFormed c) (i : Nat)
    (hfree : c.isFree i) :
    ∃ (c' : LinkAccessController) (handle : Link),
      c.requestLink = RequestResult.granted c' handle ∧ c'.releaseLink handle = some c := by
  rcases requestLink_spec c h with ⟨hfull, _⟩ | ⟨k, hk, hkfree, _, hreq⟩
  · exact absurd hfree (hfull i)
  · refine ⟨_, _, hreq, ?_⟩
    rw [releaseLink_spec _ (wellFormed_set c h k true) k hk true]
    simp only
    rw [set_true_set_false c k hkfree]

end LinkAccessController

/-- C4 (pool selection policy): on a link table with the constructor's ids in
which some link is free, `requestLink` returns without waiting; the handle it
returns is in use and its id `k` is the least index of a free link; in the
table exactly link `k` has been marked in use and every other link is as
before. -/
theorem C4_pool_selection_policy (c : LinkAccessController) (hwf : c.WellFormed) (i : Nat)
    (hfree : c.isFree i) :
    ∃ k : Nat, k ≤ i ∧ k < NUM_OF_LINKS ∧ c.isFree k ∧ (∀ j : Nat, j < k → ¬ c.isFree j) ∧
      ∃ (c' : LinkAccessController) (handle : Link),
        c.requestLink = RequestResult.granted c' handle ∧
        handle.getLinkId = (k : Int) ∧ handle.isInUse = true ∧
        c'.commsLinks[k]? = some { inUse := true, linkId := (k : Int) } ∧
        (∀ j : Nat, j ≠ k → c'.commsLinks[j]? = c.commsLinks[j]?) ∧
        c'.commsLinks.length = c.commsLinks.length ∧
        c'.numOfAvailableLinks = c.numOfAvailableLinks := by
  rcases LinkAccessController.requestLink_spec c hwf with ⟨hfull, _⟩ | ⟨k, hk, hkfree, hlow, hreq⟩
  · exact absurd hfree (hfull i)
  · have hklen : k < c.commsLinks.length := by
      rw [LinkAccessController.wellFormed_length c hwf]; exact hk
    refine ⟨k, ?_, hk, ?_, ?_, _, _, hreq, rfl, rfl, ?_, ?_, ?_, rfl⟩
    · by_contra hlt
      have := hlow i (by omega)
      unfold LinkAccessController.isFree at hfree
      rw [this] at hfree
      simp [Link.isInUse] at hfree
    · unfold LinkAccessController.isFree
      rw [hkfree]
      rfl
    · intro j hj hjfree
      unfold LinkAccessController.isFree at hjfree
      rw [hlow j hj] at hjfree
      simp [Link.isInUse] at hjfree
    · simp [List.getElem?_set_self hklen]
    · intro j hj
      simp only
      rw [List.getElem?_set_ne (Ne.symm hj)]
    · simp

/-- Witness for C4: link 0 in use, links 1 and 2 free; the request is made
with link 2 known to be free and returns link 1. -/
theorem C4_pool_selection_policy_witness :
    ∃ k : Nat, k ≤ 2 ∧ k < NUM_OF_LINKS ∧
      LinkAccessController.isFree
        { numOfAvailableLinks := 3,
          commsLinks := [{ inUse := true, linkId := 0 }, { inUse := false, linkId := 1 },
                         { inUse := false, linkId := 2 }] } k ∧
      (∀ j : Nat, j < k → ¬ LinkAccessController.isFree
        { numOfAvailableLinks := 3,
          commsLinks := [{ inUse := true, linkId := 0 }, { inUse := false, linkId := 1 },
                         { inUse := false, linkId := 2 }] } j) ∧
      ∃ (c' : LinkAccessController) (handle : Link),
        LinkAccessController.requestLink
          { numOfAvailableLinks := 3,
            commsLinks := [{ inUse := true, linkId := 0 }, { inUse := false, linkId := 1 },
                           { inUse := false, linkId := 2 }] } =
          RequestResult.granted c' handle ∧
        handle.getLinkId = (k : Int) ∧ handle.isInUse = true ∧
        c'.commsLinks[k]? = some { inUse := true, linkId := (k : Int) } ∧
        (∀ j : Nat, j ≠ k → c'.commsLinks[j]? =
          [({ inUse := true, linkId := 0 } : Link), { inUse := false, linkId := 1 },
            { inUse := false, linkId := 2 }][j]?) ∧
        c'.commsLinks.length = 3 ∧
        c'.numOfAvailableLinks = 3 :=
  C4_pool_selection_policy
    { numOfAvailableLinks := 3,
      commsLinks := [{ inUse := true, linkId := 0 }, { inUse := false, linkId := 1 },
                     { inUse := false, linkId := 2 }] }
    (by decide) 2 (by decide)

/-- C10 (acquire/release round trip): in every state reached from the
constructed LinkAccessController the table has NUM_OF_LINKS links and link `i`
has `getLinkId() == i`; `requestLink` does not index outside the table and a
handle it returns has an id in `[0, NUM_OF_LINKS)`; `releaseLink` of an
outstanding handle does not index outside the table; and when some link is
free, `requestLink` followed by `releaseLink` of the returned handle gives back
the table exactly. -/
theorem C10_request_release_round_trip (s : PoolSys) (hs : PoolSys.Reachable s) :
    s.lac.commsLinks.length = NUM_OF_LINKS ∧
    (∀ i : Nat, i < NUM_OF_LINKS →
      ∃ l : Link, s.lac.commsLinks[i]? = some l ∧ l.getLinkId = (i : Int)) ∧
    s.lac.requestLink ≠ RequestResult.fault ∧
    (∀ (lac : LinkAccessController) (handle : Link),
      s.lac.requestLink = RequestResult.granted lac handle →
        0 ≤ handle.getLinkId ∧ handle.getLinkId < (NUM_OF_LINKS : Int) ∧
        vectorAt lac.commsLinks handle.getLinkId = some handle) ∧
    (∀ (caller : Nat) (handle : Link), (caller, handle) ∈ s.held →
        0 ≤ handle.getLinkId ∧ handle.getLinkId < (NUM_OF_LINKS : Int) ∧
        s.lac.releaseLink handle ≠ none) ∧
    (∀ i : Nat, s.lac.isFree i →
      ∃ (lac : LinkAccessController) (handle : Link),
        s.lac.requestLink = RequestResult.granted lac handle ∧
        lac.releaseLink handle = some s.lac) := by
  have hinv := PoolSys.pool_inv_of_reachable hs
  obtain ⟨hwf, hheld, hnd, hcnt⟩ := hinv
  have hlen := LinkAccessController.wellFormed_length s.lac hwf
  refine ⟨hlen, ?_, ?_, ?_, ?_, ?_⟩
  · intro i hi
    have hi2 : i < s.lac.commsLinks.length := by rw [hlen]; exact hi
    have hget : s.lac.commsLinks[i]? = some (s.lac.commsLinks[i]) :=
      List.getElem?_eq_getElem hi2
    exact ⟨_, hget, LinkAccessController.wellFormed_getElem s.lac hwf i _ hget⟩
  · rcases LinkAccessController.requestLink_spec s.lac hwf with ⟨_, hw⟩ | ⟨k, _, _, _, hg⟩
    · rw [hw]; intro h; cases h
    · rw [hg]; intro h; cases h
  · intro lac handle hreq
    rcases LinkAccessController.requestLink_spec s.lac hwf with ⟨_, hw⟩ | ⟨k, hk, _, _, hg⟩
    · rw [hw] at hreq; cases hreq
    · rw [hg] at hreq
      cases hreq
      have hklen : k < s.lac.commsLinks.length := by rw [hlen]; exact hk
      refine ⟨by simp [Link.getLinkId], by simpa [Link.getLinkId] using hk, ?_⟩
      simp [vectorAt, Link.getLinkId, hklen, List.getElem?_set_self hklen]
  · intro caller handle hmem
    obtain ⟨k, hk, hp, htab⟩ := hheld _ hmem
    simp only at hp
    subst hp
    refine ⟨by simp [Link.getLinkId], by simpa [Link.getLinkId] using hk, ?_⟩
    rw [LinkAccessController.releaseLink_spec s.lac hwf k hk true]
    simp
  · intro i hfree
    exact LinkAccessController.request_release_roundtrip s.lac hwf i hfree

/-- Witness for C10: the state in which callers 7 and 8 hold links 0 and 1. -/
theorem C10_request_release_round_trip_witness :
    ∃ s : PoolSys,
      s = { lac := { numOfAvailableLinks := 3,
                     commsLinks := [{ inUse := true, linkId := 0 }, { inUse := true, linkId := 1 },
                                    { inUse := false, linkId := 2 }] },
            held := [(8, { inUse := true, linkId := 1 }), (7, { inUse := true, linkId := 0 })] } ∧
      ∃ (lac : LinkAccessController) (handle : Link),
        s.lac.requestLink = RequestResult.granted lac handle ∧
        lac.releaseLink handle = some s.lac :=
  ⟨_, rfl,
    (C10_request_release_round_trip _
      (PoolSys.Reachable.request 8
        (PoolSys.Reachable.request 7 PoolSys.Reachable.init (by rfl))
        (by rfl))).2.2.2.2.2 2 (by decide)⟩

end ConcurrentSystems
